import Mathlib

/-!
Verification development for the BTEB results repository.

The gradesheet parser (src/nn.py, parse_pdf_results), the record
normalization step (src/nn.py, transfer_pdf_to_firestore), the batch
writer (src/nn.py, batch_write_to_firestore), the multi-store resolver
(src/multi_supabase.py, MultiSupabaseManager.search_student_across_projects
together with src/web_api_fallback.py,
WebAPIFallback.search_student_across_web_apis) and the CGPA phase of the
HTTP handler (src/multi_supabase_api_server.py, search_result) are embedded
shallowly below.  Python regular expressions are hand-compiled to
deterministic scanners over character lists; for each pattern the relevant
source line is cited and the compilation is noted where greedy matching or
backtracking of the original pattern degenerates to a deterministic scan.
External effects (Firestore, Supabase, HTTP) are modelled by explicit
outcome-valued oracles passed in as arguments.
-/

namespace BTEB

/-- Python whitespace class for the patterns in use (re module class \s). -/
def isPySpace (c : Char) : Bool :=
  c = ' ' || c = '\t' || c = '\n' || c = '\r' || c = '\x0b' || c = '\x0c'

/-- Character class [\d.] used by the gpa value patterns in src/nn.py. -/
def isValChar (c : Char) : Bool := c.isDigit || c = '.'

/-- ASCII letter class [A-Za-z] (district part of the institute header). -/
def isAsciiAlpha (c : Char) : Bool :=
  ('A' ≤ c && c ≤ 'Z') || ('a' ≤ c && c ≤ 'z')

/-- Python str.strip (both ends, whitespace). -/
def pyStrip (cs : List Char) : List Char :=
  ((cs.dropWhile isPySpace).reverse.dropWhile isPySpace).reverse

def strOf (cs : List Char) : String := String.mk cs

/-- Digit string to Nat, Python int() on an all-digit string. -/
def digitsToNat (cs : List Char) : Nat :=
  cs.foldl (fun acc c => 10 * acc + (c.toNat - '0'.toNat)) 0

def strToNat (s : String) : Nat := digitsToNat s.data

/-- Case-insensitive-capable character comparison (re.IGNORECASE). -/
def charEq (icase : Bool) (a b : Char) : Bool :=
  if icase then a.toLower = b.toLower else a = b

/-- Match a literal prefix, returning the remaining input on success. -/
def litMatch (icase : Bool) : List Char → List Char → Option (List Char)
  | cs, [] => some cs
  | [], _ :: _ => none
  | c :: cs, l :: ls => if charEq icase c l then litMatch icase cs ls else none

def lowmax? (ns : List Nat) : Option Nat :=
  ns.foldl (fun acc n =>
    match acc with
    | none => some n
    | some m => some (max m n)) none

/-!
Institute header pattern, src/nn.py line 335:
  re.search with pattern `(\d{5})\s*-\s*([^,]+),\s*([A-Za-z\s]+)`
Compiled to a deterministic position scan: at each start position the
pattern either matches or fails without useful backtracking ([^,]+ is a
maximal non-comma run, so the following comma is the first comma after the
dash; \d{5} has fixed width).  Captured groups are returned already
stripped, as the caller strips them (lines 337-339); for group 3 the
interaction of \s* with the [A-Za-z\s]+ class only shifts whitespace
between the two, which stripping erases.
-/

/-- Attempt the institute header pattern anchored at the current position. -/
def instTryAt (cs : List Char) : Option (List Char × List Char × List Char) :=
  let code := cs.take 5
  if code.length = 5 && code.all Char.isDigit then
    match (cs.drop 5).dropWhile isPySpace with
    | '-' :: r2 =>
      let r3 := r2.dropWhile isPySpace
      let nm := r3.takeWhile (fun c => c ≠ ',')
      if nm = [] then none else
      match r3.drop nm.length with
      | ',' :: r4 =>
        let dist := r4.takeWhile (fun c => isAsciiAlpha c || isPySpace c)
        if dist = [] then none
        else some (code, pyStrip nm, pyStrip dist)
      | _ => none
    | _ => none
  else none

/-- Leftmost match of the institute header pattern (re.search). -/
def instSearch : List Char → Option (List Char × List Char × List Char)
  | [] => none
  | c :: rest =>
    match instTryAt (c :: rest) with
    | some r => some r
    | none => instSearch rest

/-!
Student block pattern, src/nn.py line 353:
  re.findall with pattern `(\d{6,8})\s*[\(\{]([^)]*)`
\d{6,8} is greedy, so lengths 8, 7, 6 are tried in that order at each
position; the blob capture [^)]* is the maximal run up to the first ')'
or end of line.  findall resumes after the end of each match.
-/

/-- Attempt the student block pattern at the current position, returning
roll, blob and the remaining input after the match. -/
def studentTryAt (cs : List Char) : Option (List Char × List Char × List Char) :=
  let tryLen := fun (n : Nat) =>
    let ds := cs.take n
    if ds.length = n && ds.all Char.isDigit then
      match (cs.drop n).dropWhile isPySpace with
      | d :: r2 =>
        if d = '(' || d = Char.ofNat 123 then
          let blob := r2.takeWhile (fun c => c ≠ ')')
          some (ds, blob, r2.drop blob.length)
        else none
      | [] => none
    else none
  match tryLen 8 with
  | some r => some r
  | none =>
    match tryLen 7 with
    | some r => some r
    | none => tryLen 6

/-- All student block matches of a line (re.findall semantics: scan left to
right, resume after each match; every match consumes at least 7 characters
and every failure advances one position, so fuel = length suffices). -/
def findStudentsAux : Nat → List Char → List (List Char × List Char)
  | 0, _ => []
  | _, [] => []
  | fuel + 1, c :: rest =>
    match studentTryAt (c :: rest) with
    | some (roll, blob, after) => (roll, blob) :: findStudentsAux fuel after
    | none => findStudentsAux fuel rest

def findStudents (cs : List Char) : List (List Char × List Char) :=
  findStudentsAux cs.length cs

/-!
GPA token pattern with terminator, src/nn.py lines 365 (with re.IGNORECASE,
applied to a student blob) and 503 (case-sensitive, applied to the whole
line):
  re.findall with pattern `gpa(\d+):\s*([\d.]+|ref)(?:\)|,|\s|$)`
The value alternation is deterministic: [\d.]+ is a maximal run (a shorter
run is followed by another [\d.] character, never by a terminator), and the
literal alternative ref can only apply when the run is empty.  The
non-capturing terminator consumes one character unless it is end of input.
-/

/-- Attempt the terminated gpa token pattern at the current position,
returning semester number, captured value text and the remaining input. -/
def gpaTokTryAt (icase : Bool) (cs : List Char) : Option (Nat × List Char × List Char) :=
  match litMatch icase cs ['g', 'p', 'a'] with
  | none => none
  | some r1 =>
    let ds := r1.takeWhile Char.isDigit
    if ds = [] then none else
    match r1.drop ds.length with
    | ':' :: r3 =>
      let r4 := r3.dropWhile isPySpace
      let run := r4.takeWhile isValChar
      let finish := fun (v : List Char) (r5 : List Char) =>
        match r5 with
        | [] => some (digitsToNat ds, v, ([] : List Char))
        | t :: r6 =>
          if t = ')' || t = ',' || isPySpace t then some (digitsToNat ds, v, r6)
          else none
      if run ≠ [] then finish run (r4.drop run.length)
      else
        match litMatch icase r4 ['r', 'e', 'f'] with
        | some r5 => finish (r4.take 3) r5
        | none => none
    | _ => none

def findGpaToksAux (icase : Bool) : Nat → List Char → List (Nat × List Char)
  | 0, _ => []
  | _, [] => []
  | fuel + 1, c :: rest =>
    match gpaTokTryAt icase (c :: rest) with
    | some (sem, v, after) => (sem, v) :: findGpaToksAux icase fuel after
    | none => findGpaToksAux icase fuel rest

def findGpaToks (icase : Bool) (cs : List Char) : List (Nat × List Char) :=
  findGpaToksAux icase cs.length cs

/-!
Continuation gpa token pattern, src/nn.py line 425 (case-sensitive):
  re.findall with pattern `gpa(\d+):\s*([\d.]+|ref)\)?(\d+)?`
No terminator; instead an optional ')' and an optional digit run (the roll
number that may directly follow).  After a maximal [\d.]+ value the next
character is never a digit, so the optional groups are deterministic.
-/

def gpaContTryAt (cs : List Char) : Option (Nat × List Char × List Char × List Char) :=
  match litMatch false cs ['g', 'p', 'a'] with
  | none => none
  | some r1 =>
    let ds := r1.takeWhile Char.isDigit
    if ds = [] then none else
    match r1.drop ds.length with
    | ':' :: r3 =>
      let r4 := r3.dropWhile isPySpace
      let run := r4.takeWhile isValChar
      let finish := fun (v : List Char) (r5 : List Char) =>
        let r6 := match r5 with
          | ')' :: t => t
          | _ => r5
        let nextRoll := r6.takeWhile Char.isDigit
        some (digitsToNat ds, v, nextRoll, r6.drop nextRoll.length)
      if run ≠ [] then finish run (r4.drop run.length)
      else
        match litMatch false r4 ['r', 'e', 'f'] with
        | some r5 => finish (r4.take 3) r5
        | none => none
    | _ => none

def findGpaContAux : Nat → List Char → List (Nat × List Char × List Char)
  | 0, _ => []
  | _, [] => []
  | fuel + 1, c :: rest =>
    match gpaContTryAt (c :: rest) with
    | some (sem, v, nr, after) => (sem, v, nr) :: findGpaContAux fuel after
    | none => findGpaContAux fuel rest

def findGpaCont (cs : List Char) : List (Nat × List Char × List Char) :=
  findGpaContAux cs.length cs

/-!
Value-then-gpa continuation pattern, src/nn.py line 452:
  re.search with pattern `([\d.]+),\s*gpa(\d+):\s*([\d.]+|ref)`
Leftmost match; at each position the leading [\d.]+ is a maximal run that
must be directly followed by the comma.
-/

def contPairTryAt (cs : List Char) : Option (List Char × Nat × List Char) :=
  let run := cs.takeWhile isValChar
  if run = [] then none else
  match cs.drop run.length with
  | ',' :: r2 =>
    let r3 := r2.dropWhile isPySpace
    match litMatch false r3 ['g', 'p', 'a'] with
    | none => none
    | some r4 =>
      let ds := r4.takeWhile Char.isDigit
      if ds = [] then none else
      match r4.drop ds.length with
      | ':' :: r5 =>
        let r6 := r5.dropWhile isPySpace
        let v := r6.takeWhile isValChar
        if v ≠ [] then some (run, digitsToNat ds, v)
        else
          match litMatch false r6 ['r', 'e', 'f'] with
          | some _ => some (run, digitsToNat ds, r6.take 3)
          | none => none
      | _ => none
  | _ => none

def searchContPair : List Char → Option (List Char × Nat × List Char)
  | [] => none
  | c :: rest =>
    match contPairTryAt (c :: rest) with
    | some r => some r
    | none => searchContPair rest

/-!
Anchored bare-value continuation pattern, src/nn.py line 476:
  re.search with pattern `^\s*([\d.]+)(?:,\s*(?:ref_sub|\})|\))`
Anchored at the start, so only one attempt; after a maximal [\d.]+ run the
tail alternation is decided by the next character.
-/

def bareValMatch (cs : List Char) : Option (List Char) :=
  let r1 := cs.dropWhile isPySpace
  let run := r1.takeWhile isValChar
  if run = [] then none else
  match r1.drop run.length with
  | ')' :: _ => some run
  | ',' :: r2 =>
    let r3 := r2.dropWhile isPySpace
    if (litMatch false r3 ['r', 'e', 'f', '_', 's', 'u', 'b']).isSome
        || r3.head? = some (Char.ofNat 125) then
      some run
    else none
  | _ => none

/-- Leading numeric value, src/nn.py line 403:
  re.match with pattern `^\s*([\d.]+)` -/
def leadValMatch (cs : List Char) : Option (List Char) :=
  let r1 := (pyStrip cs).dropWhile isPySpace
  let run := r1.takeWhile isValChar
  if run = [] then none else some run

/-- Value followed by a ref_sub marker, src/nn.py line 413:
  re.search with pattern `([\d.]+),\s*ref_sub:` -/
def valRefTryAt (cs : List Char) : Option (List Char) :=
  let run := cs.takeWhile isValChar
  if run = [] then none else
  match cs.drop run.length with
  | ',' :: r2 =>
    let r3 := r2.dropWhile isPySpace
    if (litMatch false r3 ['r', 'e', 'f', '_', 's', 'u', 'b', ':']).isSome
    then some run else none
  | _ => none

def searchValRef : List Char → Option (List Char)
  | [] => none
  | c :: rest =>
    match valRefTryAt (c :: rest) with
    | some r => some r
    | none => searchValRef rest

/-!
Referred subject capture, src/nn.py lines 381 (re.IGNORECASE, on a blob)
and 516 (case-sensitive, on the whole line):
  re.search with pattern `ref_sub:\s*([^}]+)`
The capture returned here is the maximal non-brace run after the literal;
the Python group may exclude whitespace eaten by \s*, but the caller strips
and comma-splits the capture, for which the two are interchangeable.
-/

def refSubTryAt (icase : Bool) (cs : List Char) : Option (List Char) :=
  match litMatch icase cs ['r', 'e', 'f', '_', 's', 'u', 'b', ':'] with
  | none => none
  | some r1 =>
    let cap := r1.takeWhile (fun c => c ≠ Char.ofNat 125)
    if cap = [] then none else some cap

def refSubSearch (icase : Bool) : List Char → Option (List Char)
  | [] => none
  | c :: rest =>
    match refSubTryAt icase (c :: rest) with
    | some r => some r
    | none => refSubSearch icase rest

/-- Comma split, strip, drop empties: src/nn.py lines 383-384 and 518-519. -/
def splitRefSubs (cs : List Char) : List String :=
  ((pyStrip cs).splitOn ',').filterMap (fun part =>
    let p := pyStrip part
    if p = [] then none else some (strOf p))

/-!
Subject code pattern, src/nn.py lines 529 and 532:
  re.findall with pattern `(\d+\([TP]\)[^,\s]*)`
The digit run must be directly followed by the parenthesised T or P marker
(shorter digit runs are followed by a digit, so greediness is moot).
-/

def subjTryAt (cs : List Char) : Option (List Char × List Char) :=
  let ds := cs.takeWhile Char.isDigit
  if ds = [] then none else
  match cs.drop ds.length with
  | '(' :: m :: ')' :: r3 =>
    if m = 'T' || m = 'P' then
      let tail := r3.takeWhile (fun c => !(c = ',' || isPySpace c))
      some (ds ++ '(' :: m :: ')' :: tail, r3.drop tail.length)
    else none
  | _ => none

def findSubjAux : Nat → List Char → List (List Char)
  | 0, _ => []
  | _, [] => []
  | fuel + 1, c :: rest =>
    match subjTryAt (c :: rest) with
    | some (cap, after) => cap :: findSubjAux fuel after
    | none => findSubjAux fuel rest

def findSubjects (cs : List Char) : List (List Char) :=
  findSubjAux cs.length cs

/-!
Parse state of parse_pdf_results (src/nn.py lines 303-353).  Python uses
insertion-ordered dicts: institutes maps institute code to a record, each
with an insertion-ordered students dict mapping roll to a per-student dict
with a gpas dict (semester to raw value string), the referred subject list
and the optional temporary incomplete_gpa marker (line 374).
Insertion-ordered dicts are modelled as association lists with
insert-or-update (update in place, append when new).
-/

structure PStudent where
  gpas : List (Nat × String)
  refSubjects : List String
  incompleteGpa : Option Nat
  deriving Repr, DecidableEq

def newStudent : PStudent := ⟨[], [], none⟩

structure PInst where
  name : String
  district : String
  students : List (String × PStudent)
  deriving Repr, DecidableEq

structure PState where
  institutes : List (String × PInst)
  currentInst : Option String
  deriving Repr, DecidableEq

/-- Insert-or-update for an insertion-ordered dict: an existing key keeps
its position, a new key is appended. -/
def setAssoc {α β : Type} [DecidableEq α] (k : α) (v : β) : List (α × β) → List (α × β)
  | [] => [(k, v)]
  | (k', v') :: t => if k = k' then (k', v) :: t else (k', v') :: setAssoc k v t

/-- Update the value at a key when present (no-op when absent; keys are
unique in the modelled dicts, so updating the first occurrence is dict
update). -/
def updAssoc {α β : Type} [DecidableEq α] (k : α) (f : β → β) :
    List (α × β) → List (α × β)
  | [] => []
  | (k', v') :: t => if k = k' then (k', f v') :: t else (k', v') :: updAssoc k f t

/-- Lookup in an association list. -/
def getAssoc {α β : Type} [DecidableEq α] (k : α) : List (α × β) → Option β
  | [] => none
  | (k', v') :: t => if k = k' then some v' else getAssoc k t

/-- Update the most recently inserted entry
(list(dict.keys())[-1] in Python, e.g. src/nn.py line 395). -/
def updLast {α β : Type} (f : β → β) : List (α × β) → List (α × β)
  | [] => []
  | [p] => [(p.1, f p.2)]
  | p :: q :: t => p :: updLast f (q :: t)

/-- students[roll] initialisation on first sighting, src/nn.py lines 357-361. -/
def ensureStudent (roll : String) (ss : List (String × PStudent)) :
    List (String × PStudent) :=
  if (getAssoc roll ss).isSome then ss else ss ++ [(roll, newStudent)]

/-- gpas[sem] = v. -/
def setGpa (sem : Nat) (v : String) (st : PStudent) : PStudent :=
  { st with gpas := setAssoc sem v st.gpas }

/-- Step 1 of line processing: one student block match (src/nn.py lines
356-390): initialise the record, extract terminated gpa tokens from the
blob (line 365, IGNORECASE), mark an empty value as incomplete (lines
370-374; unreachable, since the value pattern cannot match an empty
string) or store it (line 376), and accumulate referred subjects from the
blob (lines 381-385, IGNORECASE). -/
def applyStudentMatch (roll : String) (blob : List Char) (inst : PInst) : PInst :=
  let ss := ensureStudent roll inst.students
  let ss := (findGpaToks true blob).foldl (fun ss tok =>
    if 1 ≤ tok.1 && tok.1 ≤ 8 then
      if tok.2 = [] then
        updAssoc roll (fun st => { st with incompleteGpa := some tok.1 }) ss
      else
        updAssoc roll (setGpa tok.1 (strOf tok.2)) ss
    else ss) ss
  let ss := match refSubSearch true blob with
    | some cap =>
      updAssoc roll (fun st =>
        { st with refSubjects := st.refSubjects ++ splitRefSubs cap }) ss
    | none => ss
  { inst with students := ss }

/-- Step 2: pending-incomplete-value resolution on the most recent student
(src/nn.py lines 394-420).  Both sub-checks run with the semester number
captured before the first one clears the marker, exactly as in the source
(the second overwrites the first when both match). -/
def applyIncomplete (line : List Char) (inst : PInst) : PInst :=
  match inst.students.getLast? with
  | none => inst
  | some (_, lastSt) =>
    match lastSt.incompleteGpa with
    | none => inst
    | some isem =>
      let inst := match leadValMatch line with
        | some v =>
          { inst with students := updLast (fun st =>
              { (setGpa isem (strOf v) st) with incompleteGpa := none }) inst.students }
        | none => inst
      match searchValRef line with
      | some v =>
        { inst with students := updLast (fun st =>
            { (setGpa isem (strOf v) st) with incompleteGpa := none }) inst.students }
      | none => inst

/-- The student receiving a continuation value that is directly followed
by a new roll number (src/nn.py lines 433-441): scan the recorded rolls in
reversed insertion order and take the first whose integer value is below
the follower. -/
def findPrevRoll (rolls : List String) (next : Nat) : Option String :=
  rolls.reverse.find? (fun r => strToNat r < next)

/-- Step 3, one token: continuation gpa attribution (src/nn.py lines
427-448).  With a trailing roll number the value goes to the student
selected by findPrevRoll; otherwise to the most recent student. -/
def applyContTok (inst : PInst) (tok : Nat × List Char × List Char) : PInst :=
  if 1 ≤ tok.1 && tok.1 ≤ 8 && tok.2.1 ≠ [] then
    if tok.2.2 ≠ [] then
      match findPrevRoll (inst.students.map Prod.fst) (digitsToNat tok.2.2) with
      | some r =>
        { inst with students := updAssoc r (setGpa tok.1 (strOf tok.2.1)) inst.students }
      | none => inst
    else
      if inst.students = [] then inst
      else { inst with students := updLast (setGpa tok.1 (strOf tok.2.1)) inst.students }
  else inst

def applyPass3 (line : List Char) (inst : PInst) : PInst :=
  (findGpaCont line).foldl applyContTok inst

/-- Step 4: value-then-gpa continuation (src/nn.py lines 452-472).  The
guard at line 464 compares the maximum existing semester against the gpas
keys, so the prev-value branch never writes; the current value is then
stored on the most recent student (line 470). -/
def applyPass4 (line : List Char) (inst : PInst) : PInst :=
  match searchContPair line with
  | none => inst
  | some (prevV, sem, v) =>
    if 1 ≤ sem && sem ≤ 8 && inst.students ≠ [] then
      let fillPrev : PStudent → PStudent := fun st =>
        match lowmax? (st.gpas.map Prod.fst) with
        | none => st
        | some m =>
          if (getAssoc m st.gpas).isNone then setGpa m (strOf prevV) st else st
      let inst :=
        if prevV ≠ [] then { inst with students := updLast fillPrev inst.students }
        else inst
      { inst with students := updLast (setGpa sem (strOf v)) inst.students }
    else inst

/-- Step 5: anchored bare value on a continuation line (src/nn.py lines
476-500): resolve a pending marker of the most recent student, else fill
the lowest missing semester below the current maximum (lines 492-500). -/
def applyPass5 (line : List Char) (inst : PInst) : PInst :=
  match bareValMatch line with
  | none => inst
  | some v =>
    if inst.students = [] then inst
    else
      { inst with students := updLast (fun st =>
          match st.incompleteGpa with
          | some isem => { (setGpa isem (strOf v) st) with incompleteGpa := none }
          | none =>
            match lowmax? (st.gpas.map Prod.fst) with
            | none => st
            | some m =>
              match (List.range' 1 m).find? (fun s => (getAssoc s st.gpas).isNone) with
              | some s => setGpa s (strOf v) st
              | none => st) inst.students }

/-- Step 6: standalone terminated gpa tokens over the whole line (src/nn.py
lines 503-512), stored on the most recent student only when the semester is
not already present. -/
def applyPass6 (line : List Char) (inst : PInst) : PInst :=
  (findGpaToks false line).foldl (fun inst tok =>
    let addNew : PStudent → PStudent := fun st =>
      if (getAssoc tok.1 st.gpas).isNone then setGpa tok.1 (strOf tok.2) st else st
    if 1 ≤ tok.1 && tok.1 ≤ 8 && inst.students ≠ [] && tok.2 ≠ [] then
      { inst with students := updLast addNew inst.students }
    else inst) inst

/-- Step 7: referred-subject continuation on the whole line (src/nn.py
lines 516-526). -/
def applyPass7 (line : List Char) (inst : PInst) : PInst :=
  match refSubSearch false line with
  | none => inst
  | some cap =>
    if inst.students = [] then inst
    else { inst with students := updLast (fun st =>
        { st with refSubjects := st.refSubjects ++ splitRefSubs cap }) inst.students }

/-- Step 8: bare subject-code tokens (src/nn.py lines 529-539). -/
def applyPass8 (line : List Char) (inst : PInst) : PInst :=
  let subs := findSubjects line
  if subs = [] then inst
  else if inst.students = [] then inst
  else { inst with students := updLast (fun st =>
      { st with refSubjects := st.refSubjects ++ subs.map strOf }) inst.students }

/-- All per-line processing inside the current institute (src/nn.py lines
350-539): every read and write goes through institutes[current_inst]. -/
def processLine (line : List Char) (inst : PInst) : PInst :=
  let inst := (findStudents line).foldl
    (fun i m => applyStudentMatch (strOf m.1) m.2 i) inst
  let inst := applyIncomplete line inst
  let inst := applyPass3 line inst
  let inst := applyPass4 line inst
  let inst := applyPass5 line inst
  let inst := applyPass6 line inst
  let inst := applyPass7 line inst
  applyPass8 line inst

/-- One line of the main loop (src/nn.py lines 327-347): strip, skip blank
lines, open a fresh institute context on a header match (line 341 rebuilds
the institute record with an empty students dict even when the code was
seen before), otherwise process the line under the current institute. -/
def stepLine (s : PState) (rawLine : String) : PState :=
  let line := pyStrip rawLine.data
  if line = [] then s
  else
    match instSearch line with
    | some (code, nm, dist) =>
      { institutes :=
          setAssoc (strOf code) ⟨strOf nm, strOf dist, []⟩ s.institutes,
        currentInst := some (strOf code) }
    | none =>
      match s.currentInst with
      | none => s
      | some cur => { s with institutes := updAssoc cur (processLine line) s.institutes }

def parseRaw (lines : List String) : PState :=
  lines.foldl stepLine ⟨[], none⟩

/-- Final cleanup (src/nn.py lines 545-569): deduplicate the referred
subject list (Python list(set(...)); modelled as first-occurrence
deduplication, which is permutation-equivalent) and drop the temporary
incomplete_gpa marker. -/
def cleanupStudent (st : PStudent) : PStudent :=
  ⟨st.gpas, st.refSubjects.eraseDups, none⟩

def cleanupInst (i : PInst) : PInst :=
  { i with students := i.students.map (fun q => (q.1, cleanupStudent q.2)) }

/-- parse_pdf_results on already-extracted text lines (src/nn.py lines
303-572; PDF text extraction is an external effect, the parser proper is a
pure function of the line list). -/
def parsePdfResults (lines : List String) : List (String × PInst) :=
  (parseRaw lines).institutes.map (fun p => (p.1, cleanupInst p.2))

/-- Raw gpa map of one student in the parse result. -/
def gpasOf (res : List (String × PInst)) (code roll : String) :
    Option (List (Nat × String)) :=
  (getAssoc code res).bind (fun i => (getAssoc roll i.students).map PStudent.gpas)

/-- One semester value of one student in the parse result. -/
def gpaOf (res : List (String × PInst)) (code roll : String) (sem : Nat) :
    Option String :=
  (gpasOf res code roll).bind (getAssoc sem)

/-!
Record normalization, src/nn.py lines 619-647 (inside
transfer_pdf_to_firestore): each raw gpa value is either the literal ref
sentinel, or is converted with float() and kept only when the range check
0.0 <= v <= 4.0 passes; conversion failures and out-of-range values are
dropped (printed, not raised).  Raw values come from the parser patterns
above, whose alphabet is digits and dots (or the ref literal); float() is
modelled exactly on that alphabet (at most one dot, at least one digit) and
as failure elsewhere, which is sound for the range property since the
range check is applied to whatever float() returns.
-/

/-- An exact non-negative decimal value, mantissa / 10 ^ scale.  The tokens
reaching float() are digit-and-dot strings, whose values are exact
decimals, so this representation loses nothing. -/
structure DecVal where
  mantissa : Nat
  scale : Nat
  deriving Repr, DecidableEq

/-- The rational value denoted by a decimal. -/
def DecVal.toRat (v : DecVal) : Rat :=
  (v.mantissa : Rat) / (10 : Rat) ^ v.scale

inductive GpaVal where
  | ref
  | num (v : DecVal)
  deriving Repr, DecidableEq

structure GpaEntry where
  semester : Nat
  gpa : GpaVal
  refSubjects : List String
  deriving Repr, DecidableEq

/-- Python float() restricted to digit-and-dot strings (at most one dot, at
least one digit); other inputs raise ValueError, modelled as none. -/
def pyFloat? (s : String) : Option DecVal :=
  let cs := s.data
  if cs ≠ [] && cs.all isValChar && cs.count '.' ≤ 1 && cs.any Char.isDigit then
    let ip := cs.takeWhile Char.isDigit
    let fp := match cs.drop ip.length with
      | '.' :: t => t
      | _ => []
    some ⟨digitsToNat (ip ++ fp), fp.length⟩
  else none

/-- One gpa entry of the normalization loop (src/nn.py lines 627-647):
ref sentinel kept with the accumulated referred subjects, numeric values
kept only inside the range check 0.0 <= f <= 4.0 (line 636; for a
non-negative decimal this is mantissa <= 4 * 10 ^ scale), everything else
dropped. -/
def normalizeEntry (refSubjects : List String) (p : Nat × String) : Option GpaEntry :=
  if p.2 = "ref" then some ⟨p.1, GpaVal.ref, refSubjects⟩
  else
    match pyFloat? p.2 with
    | some v =>
      if v.mantissa ≤ 4 * 10 ^ v.scale then some ⟨p.1, GpaVal.num v, []⟩ else none
    | none => none

/-- The per-student gpa_data dict built at src/nn.py lines 622-647 (the
sem_<n> document key is modelled by the semester number n). -/
def normalizeGpas (refSubjects : List String) (gpas : List (Nat × String)) :
    List (Nat × GpaEntry) :=
  gpas.foldl (fun acc p =>
    match normalizeEntry refSubjects p with
    | some e => setAssoc p.1 e acc
    | none => acc) []

/-!
Batch writer, src/nn.py lines 130-191 (batch_write_to_firestore): the
operation list is cut into batch_size chunks; each chunk is committed
exactly once; a failed commit is logged, waited out, and then skipped via
continue (line 180), which advances to the next chunk; successful_writes
counts the full chunk length on a successful commit and the function
returns successful_writes == total_operations.  Commit outcomes are an
oracle indexed by chunk ordinal; sleeps are elided.
-/

def chunksOfAux {α : Type} (n : Nat) : Nat → List α → List (List α)
  | 0, _ => []
  | _, [] => []
  | fuel + 1, l => l.take n :: chunksOfAux n fuel (l.drop n)

def chunksOf {α : Type} (n : Nat) (l : List α) : List (List α) :=
  chunksOfAux n l.length l

structure BatchResult where
  successfulWrites : Nat
  commits : List Nat
  success : Bool
  deriving Repr, DecidableEq

def batchWriteToFirestore {α : Type} (commitOk : Nat → Bool) (batchSize : Nat)
    (batchData : List α) : BatchResult :=
  let chunks := chunksOf batchSize batchData
  let successful := chunks.enum.foldl
    (fun acc p => if commitOk p.1 then acc + p.2.length else acc) 0
  { successfulWrites := successful,
    commits := chunks.enum.map Prod.fst,
    success := successful == batchData.length }

/-!
Multi-store resolver, src/multi_supabase.py lines 242-309
(MultiSupabaseManager.search_student_across_projects) together with the web
API fallback, src/web_api_fallback.py lines 154-177
(WebAPIFallback.search_student_across_web_apis).

Store queries are modelled by per-project outcome oracles (the roll,
regulation and program filters of one query are fixed, so they are folded
into the oracle).  A QueryRes is either the row list of a successful
.execute() or err for a raised exception; the single try block at
lines 254-286 catches exceptions from client creation, the students query
and the institutes query alike, each causing the project to be skipped.
-/

structure StudentRow where
  instituteCode : String
  payload : String
  deriving Repr, DecidableEq

structure InstRow where
  name : String
  district : String
  deriving Repr, DecidableEq

inductive QueryRes (α : Type) where
  | ok (rows : List α)
  | err
  deriving Repr, DecidableEq

structure StoreConfig where
  searchOrder : List String
  configured : List String
  studentQuery : String → QueryRes StudentRow
  instituteQuery : String → QueryRes InstRow

/-- Result of one successful store search (the dict returned at
src/multi_supabase.py lines 274-280). -/
structure StoreHit where
  studentData : StudentRow
  instituteData : Option InstRow
  projectName : String
  projectsTried : List String
  deriving Repr, DecidableEq

/-- The store loop of search_student_across_projects (lines 247-286): skip
names not in self.projects (line 248), append the name to projects_tried
(line 251) and immediately issue the single student lookup (line 259); an
empty result (line 281) or a raised exception (line 284) both fall through
to the next project with no retry; on a non-empty result the first row is
taken and the institute lookup runs in the same try block (line 267). -/
def storePhaseAux (cfg : StoreConfig) (tried : List String) :
    List String → List String × Option StoreHit
  | [] => (tried, none)
  | name :: rest =>
    if name ∈ cfg.configured then
      let tried := tried ++ [name]
      match cfg.studentQuery name with
      | QueryRes.err => storePhaseAux cfg tried rest
      | QueryRes.ok [] => storePhaseAux cfg tried rest
      | QueryRes.ok (s :: _) =>
        match cfg.instituteQuery name with
        | QueryRes.err => storePhaseAux cfg tried rest
        | QueryRes.ok insts => (tried, some ⟨s, insts.head?, name, tried⟩)
    else storePhaseAux cfg tried rest

/-- Converted web API success payload (the dict built by
convert_web_api_response, src/web_api_fallback.py lines 96-148; sourceName
is its source field, the string web_api_<name>). -/
structure WebFound where
  studentData : StudentRow
  instituteData : InstRow
  gpaRecords : List String
  sourceName : String
  deriving Repr, DecidableEq

/-- One configured web API (src/web_api_fallback.py lines 17-30).
callResult is the outcome of search_student_in_web_api (lines 43-94): some
converted payload on HTTP 200, none on 404, any other status, timeout or
network error. -/
structure WebApi where
  name : String
  priority : Nat
  callResult : Option WebFound
  deriving Repr, DecidableEq

/-- Stable ascending insertion by priority
(sorted(self.web_apis, key=priority), line 159). -/
def insertByPr (a : WebApi) : List WebApi → List WebApi
  | [] => [a]
  | b :: t => if a.priority < b.priority then a :: b :: t else b :: insertByPr a t

def sortByPriority (l : List WebApi) : List WebApi :=
  l.foldr insertByPr []

/-- Return value of search_student_across_web_apis (lines 154-177): either
the first successful conversion, or the six-field failure dict of lines
170-177, which records the names of the attempted APIs. -/
inductive WebReturn where
  | hit (r : WebFound)
  | missDict (webApisTried : List String)
  deriving Repr, DecidableEq

def searchStudentAcrossWebApis (apis : List WebApi) : WebReturn :=
  let sorted := sortByPriority apis
  match sorted.findSome? (fun a => a.callResult) with
  | some r => WebReturn.hit r
  | none => WebReturn.missDict (sorted.map WebApi.name)

/-- Python truthiness of the value returned by
search_student_across_web_apis: both shapes are non-empty dicts, so the
check at src/multi_supabase.py line 292 is always satisfied. -/
def webTruthy : WebReturn → Bool := fun _ => true

inductive PyErr where
  | keyError (k : String)
  deriving Repr, DecidableEq

/-- The unified result dict of search_student_across_projects
(src/multi_supabase.py lines 274-280, 294-301 and 303-309). -/
structure ResolveOutcome where
  studentData : Option StudentRow
  instituteData : Option InstRow
  projectName : Option String
  projectsTried : List String
  source : String
  gpaRecords : List String
  deriving Repr, DecidableEq

/-- search_student_across_projects, src/multi_supabase.py lines 242-309.
On total store miss the web fallback value is truthiness-tested (line 292)
and, being a non-empty dict in both shapes, always enters the found branch,
where the failure dict lacks the source key: the subscript at line 293
raises KeyError.  The structured not-found dict of lines 303-309 is
retained below but unreachable, since webTruthy is constantly true. -/
def searchStudentAcrossProjects (cfg : StoreConfig) (apis : List WebApi) :
    Except PyErr ResolveOutcome :=
  match storePhaseAux cfg [] cfg.searchOrder with
  | (_, some hit) =>
    Except.ok ⟨some hit.studentData, hit.instituteData, some hit.projectName,
      hit.projectsTried, "supabase", []⟩
  | (tried, none) =>
    let wr := searchStudentAcrossWebApis apis
    if webTruthy wr then
      match wr with
      | WebReturn.hit r =>
        Except.ok ⟨some r.studentData, some r.instituteData, some r.sourceName,
          tried ++ ["web_apis"], "web_api", r.gpaRecords⟩
      | WebReturn.missDict _ => Except.error (PyErr.keyError "source")
    else
      Except.ok ⟨none, none, none, tried ++ ["web_apis"], "none", []⟩

/-!
CGPA phase of the search_result handler,
src/multi_supabase_api_server.py lines 285-304: after a student has been
found in a store, cgpa records are searched by iterating
supabase_manager.get_search_order() from its first element; unconfigured
names are skipped (line 288), an exception (line 302) or an empty result
(line 299) falls through to the next project, and the first non-empty
result is returned (break, line 298).  The store that produced the student
(found_project, line 268) plays no role in this loop.  CGPA rows are
abstracted to strings.
-/

def cgpaPhase (configured : List String) (cgpaQuery : String → QueryRes String) :
    List String → List String
  | [] => []
  | name :: rest =>
    if name ∈ configured then
      match cgpaQuery name with
      | QueryRes.err => cgpaPhase configured cgpaQuery rest
      | QueryRes.ok [] => cgpaPhase configured cgpaQuery rest
      | QueryRes.ok (r :: rs) => r :: rs
    else cgpaPhase configured cgpaQuery rest

/-- The cgpa_records value computed by the handler for a store-sourced
result (src/multi_supabase_api_server.py lines 285-304).  The foundProject
argument is the store the student record came from; it is accepted and
ignored, exactly as the loop ignores found_project. -/
def searchResultCgpaRecords (foundProject : String) (order configured : List String)
    (cgpaQuery : String → QueryRes String) : List String :=
  cgpaPhase configured cgpaQuery order

/-- Codes of the lines matched as institute headers, in order (the
successful matches of src/nn.py line 335 over the stripped lines). -/
def headerCodes (lines : List String) : List String :=
  lines.filterMap (fun l => (instSearch (pyStrip l.data)).map (fun m => strOf m.1))

/-- The most recent institute header code of a line list. -/
def lastHeaderCode (lines : List String) : Option String :=
  (headerCodes lines).getLast?

/-- The in-progress record of one student in a parse state. -/
def rawStudent (s : PState) (code roll : String) : Option PStudent :=
  (getAssoc code s.institutes).bind (fun i => getAssoc roll i.students)

/-! Concrete scenarios used by the claim theorems. -/

/-- The continuation-recovery example of the specification: an institute
header, then the three wrapped lines of student 700014. -/
def c3Lines : List String :=
  ["11044 - Test Institute, Dhaka",
   "700014 (gpa4: 3.76, gpa3: 3.54, gpa2:",
   "3.34, gpa1:",
   "3.10)"]

/-- Two complete student blobs on one line. -/
def c4Lines : List String :=
  ["11044 - Test Institute, Dhaka",
   "700014 (gpa4: 3.76) 700015 (gpa3: 3.80)"]

/-- Rolls recorded out of numeric order, then a continuation token directly
followed by a new roll number. -/
def c9Lines : List String :=
  ["11044 - Test Institute, Dhaka",
   "700020 (gpa1: 3.00)",
   "700010 (gpa1: 3.00)",
   "gpa2: 3.50)700030"]

/-- Two configured stores in search order, both with an empty student
lookup result. -/
def c1Cfg : StoreConfig :=
  ⟨["primary", "secondary"], ["primary", "secondary"],
   fun _ => QueryRes.ok [], fun _ => QueryRes.ok []⟩

/-- One configured web API whose call yields no result (HTTP 404, timeout
or network error all produce none at src/web_api_fallback.py lines 79-94). -/
def c1Apis : List WebApi := [⟨"btebresulthub", 1, none⟩]

/-- Both stores hold the student row; the institute-detail query of the
first store raises. -/
def c2Cfg : StoreConfig :=
  ⟨["alpha", "beta"], ["alpha", "beta"],
   fun n => QueryRes.ok [⟨"11044", n⟩],
   fun n => if n = ("alpha") then QueryRes.err else QueryRes.ok []⟩

/-- A raw GPA token above the valid range. -/
def c7Lines : List String :=
  ["11044 - Test Institute, Dhaka",
   "700014 (gpa1: 9.99)"]

def c5Order : List String := ["alpha", "beta"]

/-- Both stores hold a CGPA record. -/
def c5Query : String → QueryRes String :=
  fun n => if n = ("alpha") then QueryRes.ok ["cgpa-alpha"] else QueryRes.ok ["cgpa-beta"]

/-- C1: a query missing from every configured store and every web API is
claimed to return a structured NotFound carrying every store name plus
web_apis and never to surface as an uncaught exception.  The code instead
raises: the failure dict returned by search_student_across_web_apis is
truthy, so search_student_across_projects enters the found branch and the
subscript `web_api_result["source"]` at src/multi_supabase.py line 293
raises a KeyError for the key source; the structured not-found return of lines
303-309 is unreachable. -/
theorem c1_exhaustive_miss_raises_keyerror :
    searchStudentAcrossProjects c1Cfg c1Apis =
      Except.error (PyErr.keyError ("source")) := by
  rfl

/-- C2 counterexample: store alpha is the earliest store whose student
lookup returns a non-empty match, yet because the subsequent
institute-detail lookup at alpha raises (inside the same try block,
src/multi_supabase.py lines 254-286), alpha is skipped and the result
names beta with projectsTried = [alpha, beta], contradicting the claimed
provenance alpha with projectsTried = [alpha]. -/
theorem c2_institute_error_skips_match :
    c2Cfg.studentQuery ("alpha") = QueryRes.ok [⟨"11044", "alpha"⟩] ∧
    searchStudentAcrossProjects c2Cfg [] =
      Except.ok ⟨some ⟨"11044", "beta"⟩, none, some ("beta"),
        ["alpha", "beta"], "supabase", []⟩ := by
  exact ⟨rfl, rfl⟩

/-- C3: on the specification example (institute header followed by the
three wrapped lines), the claim requires semesters 1-4 with values 3.10,
3.34, 3.54, 3.76.  The parser recovers only semesters 4, 3 and 1; the
value 3.34 for semester 2 is lost, because the empty-value branch of
src/nn.py lines 370-374 is unreachable (the value pattern at line 365
cannot match an empty string) and no later pass claims the line
3.34, gpa1: either. -/
theorem c3_wrapped_semester_lost :
    gpasOf (parsePdfResults c3Lines) ("11044") ("700014") =
      some [(4, "3.76"), (3, "3.54"), (1, "3.10")] ∧
    gpaOf (parsePdfResults c3Lines) ("11044") ("700014") 2 = none := by
  exact ⟨by rfl, by rfl⟩

/-- C4 counterexample: on a line holding two complete student blobs, the
token gpa4: 3.76 sits only inside the blob of 700014 (first conjunct), is
attributed to 700014 by the blob pass, and is then re-claimed by the
continuation pass of src/nn.py lines 425-448, which re-scans the whole
line and writes it into the record of the most recent student 700015 —
the same value ends up in two distinct student records. -/
theorem c4_value_attributed_twice :
    (findStudents (("700014 (gpa4: 3.76) 700015 (gpa3: 3.80)").data)).map
        (fun p => (strOf p.1, strOf p.2)) =
      [("700014", "gpa4: 3.76"), ("700015", "gpa3: 3.80")] ∧
    gpaOf (parsePdfResults c4Lines) ("11044") ("700014") 4 = some ("3.76") ∧
    gpaOf (parsePdfResults c4Lines) ("11044") ("700015") 4 = some ("3.76") := by
  exact ⟨by rfl, by rfl, by rfl⟩

/-- C5 counterexample: the student record is found in store beta, beta
holds a CGPA record, yet the handler returns the CGPA record of the
earlier store alpha: the loop at src/multi_supabase_api_server.py lines
285-304 walks the global search order from its first element and never
consults found_project. -/
theorem c5_earlier_store_cgpa_wins :
    c5Query ("beta") = QueryRes.ok ["cgpa-beta"] ∧
    searchResultCgpaRecords ("beta") c5Order c5Order c5Query =
      ["cgpa-alpha"] := by
  exact ⟨rfl, rfl⟩

/-- C6: a write batch whose commit fails is claimed to be retried before
its operations are counted as failed.  With twelve operations (two chunks
of batch size ten) and the first commit failing, the commit trace shows a
single attempt for chunk 0 — the except branch at src/nn.py lines 176-180
waits and then continues to the next chunk — and the run reports
successfulWrites = 2 and success = false without any re-attempt. -/
theorem c6_failed_batch_never_retried :
    batchWriteToFirestore (fun i => i != 0) 10 (List.range 12) =
      ⟨2, [0, 1], false⟩ ∧
    (batchWriteToFirestore (fun i => i != 0) 10 (List.range 12)).commits.count 0 = 1 := by
  exact ⟨by rfl, by rfl⟩

/-- C8: the blob of student 700014 on the second line ends with a gpa2:
token whose value is empty (it wrapped to the next line); the claim
requires the in-progress record to carry a pending incomplete-semester
marker for 2 after that line.  The record after processing the first two
lines instead has no marker at all (incompleteGpa = none) and no semester
2 entry: the marker assignment at src/nn.py line 374 is dead code, since
the extraction pattern of line 365 never yields an empty value. -/
theorem c8_no_pending_marker_set :
    (findStudents (pyStrip (("700014 (gpa4: 3.76, gpa3: 3.54, gpa2:").data))).map
        (fun p => (strOf p.1, strOf p.2)) =
      [("700014", "gpa4: 3.76, gpa3: 3.54, gpa2:")] ∧
    ((getAssoc ("11044") (parseRaw (c3Lines.take 2)).institutes).bind
        (fun i => getAssoc ("700014") i.students)) =
      some ⟨[(4, "3.76"), (3, "3.54")], [], none⟩ := by
  exact ⟨by rfl, by rfl⟩

/-- C5 amended: the CGPA lookup probes the configured stores in the global
search order from its first element (not starting at the store that
produced the student record): the first store whose CGPA query returns a
non-empty result wins, independently of foundProject, so a CGPA record
held by an earlier store takes precedence over one held by the store that
produced the student. -/
theorem c5_cgpa_first_in_search_order :
    ∀ (foundProject : String) (configured : List String)
      (q : String → QueryRes String) (pre post : List String) (s : String)
      (r : String) (rs : List String),
      (∀ x ∈ pre ++ s :: post, x ∈ configured) →
      (∀ x ∈ pre, q x = QueryRes.ok [] ∨ q x = QueryRes.err) →
      q s = QueryRes.ok (r :: rs) →
      searchResultCgpaRecords foundProject (pre ++ s :: post) configured q = r :: rs := by
  intro fp configured q pre post s r rs hconf hmiss hhit
  unfold searchResultCgpaRecords
  induction pre with
  | nil =>
    have hs : s ∈ configured := hconf s (by simp)
    simp only [List.nil_append, cgpaPhase, if_pos hs, hhit]
  | cons a t ih =>
    have ha : a ∈ configured := hconf a (by simp)
    have htail : ∀ x ∈ t ++ s :: post, x ∈ configured := by
      intro x hx
      exact hconf x (by simpa using Or.inr (by simpa using hx))
    have hrest := ih htail (fun x hx => hmiss x (List.mem_cons_of_mem _ hx))
    rcases hmiss a (List.mem_cons_self _ _) with hq | hq <;>
      simp only [List.cons_append, cgpaPhase, if_pos ha, hq] <;> exact hrest

/-- Witness for C5 amended: store alpha misses, store beta (which also
produced the student record) holds the CGPA record that is returned. -/
theorem c5_cgpa_first_in_search_order_witness :
    searchResultCgpaRecords ("beta") (["alpha"] ++ "beta" :: []) ["alpha", "beta"]
      (fun n => if n = ("alpha") then QueryRes.ok [] else QueryRes.ok ["cgpa-beta"]) =
      "cgpa-beta" :: [] := by
  exact c5_cgpa_first_in_search_order ("beta") ["alpha", "beta"] _ ["alpha"] [] ("beta")
    ("cgpa-beta") [] (by decide) (by intro x hx; simp at hx; subst hx; exact Or.inl rfl)
    (by rfl)

/-- In the store loop, a prefix of configured misses followed by a
configured store with a student match and a successful institute query
yields that store as the hit, with the tried list extended by exactly the
prefix and the hit store. -/
theorem storePhaseAux_first_hit (cfg : StoreConfig) :
    ∀ (pre : List String) (post : List String) (s : String)
      (row : StudentRow) (rest : List StudentRow) (insts : List InstRow)
      (tried : List String),
      (∀ x ∈ pre ++ s :: post, x ∈ cfg.configured) →
      (∀ x ∈ pre, cfg.studentQuery x = QueryRes.ok [] ∨ cfg.studentQuery x = QueryRes.err) →
      cfg.studentQuery s = QueryRes.ok (row :: rest) →
      cfg.instituteQuery s = QueryRes.ok insts →
      storePhaseAux cfg tried (pre ++ s :: post) =
        (tried ++ pre ++ [s],
         some ⟨row, insts.head?, s, tried ++ pre ++ [s]⟩) := by
  intro pre
  induction pre with
  | nil =>
    intro post s row rest insts tried hconf hmiss hhit hinst
    have hs : s ∈ cfg.configured := hconf s (by simp)
    simp only [List.nil_append, storePhaseAux, if_pos hs, hhit, hinst,
      List.append_nil]
  | cons a t ih =>
    intro post s row rest insts tried hconf hmiss hhit hinst
    have ha : a ∈ cfg.configured := hconf a (by simp)
    have htail : ∀ x ∈ t ++ s :: post, x ∈ cfg.configured := by
      intro x hx
      exact hconf x (by simpa using Or.inr (by simpa using hx))
    have hrest := ih post s row rest insts (tried ++ [a]) htail
      (fun x hx => hmiss x (List.mem_cons_of_mem _ hx)) hhit hinst
    rcases hmiss a (List.mem_cons_self _ _) with hq | hq <;>
      simp only [List.cons_append, storePhaseAux, if_pos ha, hq] <;>
      exact hrest.trans (by simp)

/-- C2 amended: if Si is the earliest store in search order whose student
lookup returns a non-empty match and Si's institute-detail lookup does not
itself raise, the resolver result names Si, carries the first matched row,
and projectsTried equals exactly the stores up to and including Si; a
store whose student lookup raises is treated identically to one with no
match (both appear in the disjunctive miss hypothesis) and each store is
consulted exactly once, the lookup being issued at the single point where
the store name is appended to projectsTried.  The conclusion is fully
determined by the behaviour of the stores up to Si, so stores after Si are
never issued a student-record lookup. -/
theorem c2_store_precedence :
    ∀ (cfg : StoreConfig) (apis : List WebApi) (pre post : List String)
      (s : String) (row : StudentRow) (rest : List StudentRow) (insts : List InstRow),
      cfg.searchOrder = pre ++ s :: post →
      (∀ x ∈ cfg.searchOrder, x ∈ cfg.configured) →
      (∀ x ∈ pre, cfg.studentQuery x = QueryRes.ok [] ∨ cfg.studentQuery x = QueryRes.err) →
      cfg.studentQuery s = QueryRes.ok (row :: rest) →
      cfg.instituteQuery s = QueryRes.ok insts →
      searchStudentAcrossProjects cfg apis =
        Except.ok ⟨some row, insts.head?, some s, pre ++ [s], "supabase", []⟩ := by
  intro cfg apis pre post s row rest insts horder hconf hmiss hhit hinst
  unfold searchStudentAcrossProjects
  rw [horder]
  rw [storePhaseAux_first_hit cfg pre post s row rest insts []
    (by rw [← horder]; exact hconf) hmiss hhit hinst]
  simp

/-- Witness for C2 amended: alpha misses, beta matches; the result names
beta with projectsTried = [alpha, beta]. -/
theorem c2_store_precedence_witness :
    searchStudentAcrossProjects
      ⟨["alpha", "beta"], ["alpha", "beta"],
       (fun n => if n = ("alpha") then QueryRes.ok [] else QueryRes.ok [⟨"11044", "x"⟩]),
       (fun _ => QueryRes.ok [])⟩ [] =
      Except.ok ⟨some ⟨"11044", "x"⟩, ([] : List InstRow).head?, some ("beta"),
        ["alpha"] ++ ["beta"], "supabase", []⟩ := by
  exact c2_store_precedence _ [] ["alpha"] [] ("beta") ⟨"11044", "x"⟩ [] []
    (by rfl) (by decide)
    (by intro x hx; simp at hx; subst hx; exact Or.inl rfl) (by rfl) (by rfl)

/-- Every element of an insert-or-update result either carries the new
value or was already present. -/
theorem mem_setAssoc_snd {α β : Type} [DecidableEq α] {k : α} {v : β}
    {l : List (α × β)} {x : α × β} (h : x ∈ setAssoc k v l) : x.2 = v ∨ x ∈ l := by
  induction l with
  | nil =>
    simp only [setAssoc, List.mem_singleton] at h
    exact Or.inl (by rw [h])
  | cons p t ih =>
    simp only [setAssoc] at h
    by_cases hk : k = p.1
    · simp only [if_pos hk, List.mem_cons] at h
      rcases h with h | h
      · exact Or.inl (by rw [h])
      · exact Or.inr (List.mem_cons_of_mem _ h)
    · simp only [if_neg hk, List.mem_cons] at h
      rcases h with h | h
      · exact Or.inr (by rw [h]; exact List.mem_cons_self _ _)
      · rcases ih h with h | h
        · exact Or.inl h
        · exact Or.inr (List.mem_cons_of_mem _ h)

/-- Shape of any entry produced by normalizeEntry: the ref sentinel or a
decimal that passed the range check. -/
theorem normalizeEntry_sound {refs : List String} {p : Nat × String} {e : GpaEntry}
    (h : normalizeEntry refs p = some e) :
    e.gpa = GpaVal.ref ∨
      ∃ v, e.gpa = GpaVal.num v ∧ v.mantissa ≤ 4 * 10 ^ v.scale := by
  unfold normalizeEntry at h
  split at h
  · cases h
    exact Or.inl rfl
  · split at h
    next v hv =>
      split at h
      next hle =>
        cases h
        exact Or.inr ⟨v, rfl, hle⟩
      next => cases h
    next => cases h

/-- Every entry of the normalized gpa_data dict is the ref sentinel or a
range-checked decimal. -/
theorem normalizeGpas_sound (refs : List String) (gpas : List (Nat × String)) :
    ∀ x ∈ normalizeGpas refs gpas,
      x.2.gpa = GpaVal.ref ∨
        ∃ v, x.2.gpa = GpaVal.num v ∧ v.mantissa ≤ 4 * 10 ^ v.scale := by
  have key : ∀ (l : List (Nat × String)) (acc : List (Nat × GpaEntry)),
      (∀ x ∈ acc, x.2.gpa = GpaVal.ref ∨
        ∃ v, x.2.gpa = GpaVal.num v ∧ v.mantissa ≤ 4 * 10 ^ v.scale) →
      ∀ x ∈ l.foldl (fun acc p =>
          match normalizeEntry refs p with
          | some e => setAssoc p.1 e acc
          | none => acc) acc,
        x.2.gpa = GpaVal.ref ∨
          ∃ v, x.2.gpa = GpaVal.num v ∧ v.mantissa ≤ 4 * 10 ^ v.scale := by
    intro l
    induction l with
    | nil => intro acc hacc x hx; exact hacc x hx
    | cons p t ih =>
      intro acc hacc x hx
      simp only [List.foldl_cons] at hx
      refine ih _ ?_ x hx
      intro y hy
      cases hne : normalizeEntry refs p with
      | none => rw [hne] at hy; exact hacc y hy
      | some e =>
        rw [hne] at hy
        rcases mem_setAssoc_snd hy with h | h
        · rw [h]; exact normalizeEntry_sound hne
        · exact hacc y h
  exact key gpas [] (by intro x hx; cases hx)

/-- The rational reading of a decimal is non-negative. -/
theorem DecVal.toRat_nonneg (v : DecVal) : 0 ≤ v.toRat := by
  unfold DecVal.toRat
  positivity

/-- The range check on mantissas is exactly the bound 4 on values. -/
theorem DecVal.le_four_iff (v : DecVal) :
    v.toRat ≤ 4 ↔ v.mantissa ≤ 4 * 10 ^ v.scale := by
  unfold DecVal.toRat
  rw [div_le_iff₀ (by positivity)]
  constructor
  · intro h; exact_mod_cast h
  · intro h; exact_mod_cast h

/-- C7: every GPA entry handed to the store by the normalization step is
the ref sentinel or a value in [0, 4]; a successfully parsed value above 4
is dropped by normalizeEntry; and the parser itself is permissive: it
retains the out-of-range raw token 9.99, which normalization then drops. -/
theorem c7_normalization_bounds :
    (∀ (refs : List String) (gpas : List (Nat × String)),
        ∀ x ∈ normalizeGpas refs gpas,
          x.2.gpa = GpaVal.ref ∨
            ∃ v, x.2.gpa = GpaVal.num v ∧ 0 ≤ v.toRat ∧ v.toRat ≤ 4) ∧
    (∀ (refs : List String) (sem : Nat) (s : String) (v : DecVal),
        pyFloat? s = some v → 4 < v.toRat → normalizeEntry refs (sem, s) = none) ∧
    gpaOf (parsePdfResults c7Lines) ("11044") ("700014") 1 = some ("9.99") ∧
    normalizeGpas [] [(1, "9.99")] = [] := by
  refine ⟨?_, ?_, by rfl, by rfl⟩
  · intro refs gpas x hx
    rcases normalizeGpas_sound refs gpas x hx with h | ⟨v, hv, hle⟩
    · exact Or.inl h
    · exact Or.inr ⟨v, hv, v.toRat_nonneg, (v.le_four_iff).mpr hle⟩
  · intro refs sem s v hf hgt
    have href : s ≠ "ref" := by
      intro hs
      rw [hs] at hf
      have : pyFloat? ("ref") = none := by rfl
      rw [this] at hf
      cases hf
    have hnotle : ¬ v.mantissa ≤ 4 * 10 ^ v.scale := by
      intro hle
      exact absurd ((v.le_four_iff).mpr hle) (not_le.mpr hgt)
    unfold normalizeEntry
    simp only [href, if_false, hf, hnotle, if_neg]

/-- Witness for C7: the general parts applied at concrete inputs. -/
theorem c7_normalization_bounds_witness :
    (((2 : Nat), (⟨2, GpaVal.num ⟨376, 2⟩, []⟩ : GpaEntry)).2.gpa = GpaVal.ref ∨
      ∃ v, ((2 : Nat), (⟨2, GpaVal.num ⟨376, 2⟩, []⟩ : GpaEntry)).2.gpa = GpaVal.num v ∧
        0 ≤ v.toRat ∧ v.toRat ≤ 4) ∧
    normalizeEntry [] (1, "9.99") = none := by
  refine ⟨c7_normalization_bounds.1 [] [(1, "ref"), (2, "3.76")] _ (by decide), ?_⟩
  exact c7_normalization_bounds.2.1 [] 1 ("9.99") ⟨999, 2⟩ (by rfl)
    (by rw [show (⟨999, 2⟩ : DecVal).toRat = (999 : Rat) / 100 from rfl]; norm_num)

/-- updLast only touches the most recently inserted key: lookups for any
other key are unchanged. -/
theorem getAssoc_updLast (f : PStudent → PStudent) :
    ∀ (ss : List (String × PStudent)) (k : String),
      ss.getLast?.map Prod.fst ≠ some k →
      getAssoc k (updLast f ss) = getAssoc k ss := by
  intro ss
  induction ss with
  | nil => intro k _; rfl
  | cons p t ih =>
    intro k h
    cases t with
    | nil =>
      have hk : ¬ k = p.1 := by
        intro hk
        exact h (by simp [List.getLast?, hk])
      simp only [updLast, getAssoc, if_neg hk]
    | cons q t2 =>
      have h2 : (q :: t2).getLast?.map Prod.fst ≠ some k := by
        rw [List.getLast?_cons_cons] at h
        exact h
      by_cases hk : k = p.1
      · simp only [updLast, getAssoc, if_pos hk]
      · simp only [updLast, getAssoc, if_neg hk]
        exact ih k h2

/-- C4 amended: attribution is exclusive only within a single pass, not
across passes: the continuation pass re-scans the entire line, and every
in-range gpa token with a non-empty value and no trailing roll number is
written into the record of the most recently recorded student, while the
records of all other students are left unchanged by that write — so a
token sitting inside an earlier student's blob, already claimed by the
blob pass, is claimed again and its value then appears in two student
records. -/
theorem c4_later_pass_reclaims_token :
    (∀ (inst : PInst) (sem : Nat) (v : List Char),
        inst.students ≠ [] → 1 ≤ sem → sem ≤ 8 → v ≠ [] →
        applyContTok inst (sem, v, []) =
          { inst with students := updLast (setGpa sem (strOf v)) inst.students }) ∧
    (∀ (f : PStudent → PStudent) (ss : List (String × PStudent)) (k : String),
        ss.getLast?.map Prod.fst ≠ some k →
        getAssoc k (updLast f ss) = getAssoc k ss) := by
  refine ⟨?_, getAssoc_updLast⟩
  intro inst sem v hne h1 h8 hv
  unfold applyContTok
  rw [if_pos (by simp [h1, h8, hv]), if_neg (by simp), if_neg hne]

/-- Witness for C4 amended: the continuation token (4, 3.76, no roll)
applied to an institute with two recorded students updates the last
student, and a lookup of the first student is unchanged by an updLast. -/
theorem c4_later_pass_reclaims_token_witness :
    applyContTok ⟨"Test", "Dhaka", [("700014", newStudent), ("700015", newStudent)]⟩
        (4, ['3', '.', '7', '6'], []) =
      { name := "Test", district := "Dhaka",
        students := updLast (setGpa 4 (strOf ['3', '.', '7', '6']))
          [("700014", newStudent), ("700015", newStudent)] } ∧
    getAssoc ("700014")
        (updLast (setGpa 4 (strOf ['3', '.', '7', '6']))
          [("700014", newStudent), ("700015", newStudent)]) =
      getAssoc ("700014") [("700014", newStudent), ("700015", newStudent)] := by
  constructor
  · exact c4_later_pass_reclaims_token.1
      ⟨"Test", "Dhaka", [("700014", newStudent), ("700015", newStudent)]⟩
      4 ['3', '.', '7', '6'] (by decide) (by decide) (by decide) (by decide)
  · exact c4_later_pass_reclaims_token.2 (setGpa 4 (strOf ['3', '.', '7', '6']))
      [("700014", newStudent), ("700015", newStudent)] ("700014") (by decide)

/-- A reversed find? is the last element of the filtered list. -/
theorem find?_reverse_eq_getLast?_filter {α : Type} (p : α → Bool) :
    ∀ l : List α, l.reverse.find? p = (l.filter p).getLast? := by
  intro l
  induction l with
  | nil => rfl
  | cons a t ih =>
    rw [List.reverse_cons, List.find?_append, ih, List.filter_cons]
    cases hpa : p a
    · rw [if_neg (by simp [hpa])]
      have hfa : List.find? p [a] = none := by simp [List.find?, hpa]
      rw [hfa]
      cases ho : (t.filter p).getLast? <;> simp [ho]
    · rw [if_pos (by simp [hpa])]
      have hfa : List.find? p [a] = some a := by simp [List.find?, hpa]
      rw [hfa]
      cases hf : t.filter p with
      | nil => rfl
      | cons y ys =>
        rw [List.getLast?_cons_cons]
        cases hx : (y :: ys).getLast? with
        | none => exact absurd hx (by simp [List.getLast?_eq_none_iff])
        | some x => rfl

/-- In a strictly ascending list the last element bounds every element. -/
theorem getLast?_max_of_ascending :
    ∀ (l : List String) (r : String),
      List.Pairwise (fun a b => strToNat a < strToNat b) l →
      l.getLast? = some r → ∀ x ∈ l, strToNat x ≤ strToNat r := by
  intro l
  induction l with
  | nil => intro r _ hl; cases hl
  | cons a t ih =>
    intro r hp hl x hx
    cases t with
    | nil =>
      simp only [List.getLast?_singleton, Option.some.injEq] at hl
      rcases List.mem_singleton.mp hx with h
      rw [h, hl]
    | cons b t2 =>
      rw [List.getLast?_cons_cons] at hl
      rcases List.mem_cons.mp hx with h | h
      · have hr : r ∈ b :: t2 := List.mem_of_getLast?_eq_some hl
        have := (List.pairwise_cons.mp hp).1 r hr
        rw [h]
        exact le_of_lt this
      · exact ih r (List.pairwise_cons.mp hp).2 hl x h

/-- C9 amended: a continuation value directly followed by a roll number R
is attributed to the most recently recorded student whose roll is
numerically below R (the last qualifying roll in insertion order), never
to R itself; when the recorded rolls happen to be in strictly ascending
numeric order this coincides with the numerically greatest recorded roll
below R, which is the case the claim describes. -/
theorem c9_target_most_recent_below :
    (∀ (rolls : List String) (next : Nat),
        findPrevRoll rolls next =
          (rolls.filter (fun r => strToNat r < next)).getLast?) ∧
    (∀ (rolls : List String) (next : Nat) (r : String),
        List.Pairwise (fun a b => strToNat a < strToNat b) rolls →
        findPrevRoll rolls next = some r →
        strToNat r < next ∧
          ∀ x ∈ rolls, strToNat x < next → strToNat x ≤ strToNat r) := by
  have hfr : ∀ (rolls : List String) (next : Nat),
      findPrevRoll rolls next =
        (rolls.filter (fun r => strToNat r < next)).getLast? := by
    intro rolls next
    exact find?_reverse_eq_getLast?_filter _ rolls
  refine ⟨hfr, ?_⟩
  intro rolls next r hp hfind
  rw [hfr] at hfind
  have hrmem : r ∈ rolls.filter (fun r => strToNat r < next) :=
    List.mem_of_getLast?_eq_some hfind
  have hrlt : strToNat r < next := by
    have := (List.mem_filter.mp hrmem).2
    exact of_decide_eq_true this
  refine ⟨hrlt, ?_⟩
  intro x hx hxlt
  have hxmem : x ∈ rolls.filter (fun r => strToNat r < next) :=
    List.mem_filter.mpr ⟨hx, decide_eq_true hxlt⟩
  exact getLast?_max_of_ascending _ r
    (hp.sublist (List.filter_sublist _)) hfind x hxmem

/-- Witness for C9 amended: with ascending rolls 700010, 700020 and
follower 700030, the selected roll is 700020, below 700030 and bounding
both recorded rolls. -/
theorem c9_target_most_recent_below_witness :
    strToNat ("700020") < 700030 ∧
    ∀ x ∈ ["700010", "700020"], strToNat x < 700030 →
      strToNat x ≤ strToNat ("700020") := by
  exact c9_target_most_recent_below.2 ["700010", "700020"] 700030 ("700020")
    (by decide) (by decide)

/-- C9 counterexample: rolls 700020 and 700010 are recorded in that order,
so 700020 is the numerically greatest recorded roll below 700030; the
continuation token gpa2: 3.50)700030 is nevertheless attributed to 700010,
the most recently recorded roll below 700030 (reversed insertion-order
scan, src/nn.py lines 433-441), and 700020 receives nothing. -/
theorem c9_not_numerically_closest :
    strToNat ("700010") < strToNat ("700020") ∧
    strToNat ("700020") < 700030 ∧
    gpaOf (parsePdfResults c9Lines) ("11044") ("700010") 2 = some ("3.50") ∧
    gpaOf (parsePdfResults c9Lines) ("11044") ("700020") 2 = none := by
  exact ⟨by decide, by decide, by rfl, by rfl⟩

/-! Support lemmas for the institute-attribution invariants (claim C10). -/

theorem getAssoc_setAssoc {α β : Type} [DecidableEq α] (k k' : α) (v : β) :
    ∀ l : List (α × β),
      getAssoc k (setAssoc k' v l) = if k = k' then some v else getAssoc k l := by
  intro l
  induction l with
  | nil => rfl
  | cons p t ih =>
    by_cases hk' : k' = p.1
    · simp only [setAssoc, if_pos hk', getAssoc]
      by_cases hk : k = p.1
      · rw [if_pos hk, if_pos (hk.trans hk'.symm)]
      · rw [if_neg hk, if_neg (fun h => hk (h.trans hk')), if_neg hk]
    · simp only [setAssoc, if_neg hk', getAssoc]
      by_cases hk : k = p.1
      · rw [if_pos hk, if_neg (fun h => hk' (h.symm.trans hk)), if_pos hk]
      · rw [if_neg hk, ih, if_neg hk]

theorem getAssoc_updAssoc {α β : Type} [DecidableEq α] (k k' : α) (f : β → β) :
    ∀ l : List (α × β),
      getAssoc k (updAssoc k' f l) =
        if k = k' then (getAssoc k l).map f else getAssoc k l := by
  intro l
  induction l with
  | nil => simp [updAssoc, getAssoc]
  | cons p t ih =>
    by_cases hk' : k' = p.1
    · simp only [updAssoc, if_pos hk', getAssoc]
      by_cases hk : k = p.1
      · rw [if_pos hk, if_pos (hk.trans hk'.symm), if_pos hk]
        rfl
      · rw [if_neg hk, if_neg (fun h => hk (h.trans hk')), if_neg hk]
    · simp only [updAssoc, if_neg hk', getAssoc]
      by_cases hk : k = p.1
      · rw [if_pos hk, if_neg (fun h => hk' (h.symm.trans hk)), if_pos hk]
      · rw [if_neg hk, ih, if_neg hk]

theorem map_fst_updAssoc {α β : Type} [DecidableEq α] (k : α) (f : β → β) :
    ∀ l : List (α × β), (updAssoc k f l).map Prod.fst = l.map Prod.fst := by
  intro l
  induction l with
  | nil => rfl
  | cons p t ih =>
    by_cases hk : k = p.1
    · simp only [updAssoc, if_pos hk, List.map_cons]
    · simp only [updAssoc, if_neg hk, List.map_cons, ih]

theorem mem_map_fst_setAssoc {α β : Type} [DecidableEq α] (c k : α) (v : β) :
    ∀ l : List (α × β),
      (c ∈ (setAssoc k v l).map Prod.fst ↔ c = k ∨ c ∈ l.map Prod.fst) := by
  intro l
  induction l with
  | nil => simp [setAssoc]
  | cons p t ih =>
    by_cases hk : k = p.1
    · simp only [setAssoc, if_pos hk, List.map_cons, List.mem_cons]
      rw [← hk]
      tauto
    · simp only [setAssoc, if_neg hk, List.map_cons, List.mem_cons, ih]
      tauto

/-- getAssoc through a value-only map of an association list. -/
theorem getAssoc_map_snd {α β γ : Type} [DecidableEq α] (k : α) (g : β → γ) :
    ∀ l : List (α × β),
      getAssoc k (l.map (fun p => (p.1, g p.2))) = (getAssoc k l).map g := by
  intro l
  induction l with
  | nil => rfl
  | cons p t ih =>
    simp only [List.map_cons, getAssoc]
    by_cases hk : k = p.1
    · rw [if_pos hk, if_pos hk]
      rfl
    · rw [if_neg hk, if_neg hk, ih]

/-- A header line opens a fresh institute context
(src/nn.py lines 335-347). -/
theorem stepLine_header {s : PState} {l : String}
    {m : List Char × List Char × List Char}
    (hh : instSearch (pyStrip l.data) = some m) :
    stepLine s l =
      ⟨setAssoc (strOf m.1) ⟨strOf m.2.1, strOf m.2.2, []⟩ s.institutes,
       some (strOf m.1)⟩ := by
  have hb : ¬ pyStrip l.data = [] := by
    intro h
    rw [h] at hh
    cases hh
  unfold stepLine
  rw [if_neg hb, hh]

/-- A line with no header match leaves the current-institute pointer
unchanged. -/
theorem stepLine_currentInst {s : PState} {l : String}
    (hh : instSearch (pyStrip l.data) = none) :
    (stepLine s l).currentInst = s.currentInst := by
  unfold stepLine
  by_cases hb : pyStrip l.data = []
  · rw [if_pos hb]
  · rw [if_neg hb, hh]
    cases hc : s.currentInst with
    | none => exact hc
    | some cur => rfl

/-- Before the first header, non-header lines change nothing
(every per-line pass sits under the current-institute guard of
src/nn.py line 350). -/
theorem stepLine_nop {s : PState} {l : String} (hcur : s.currentInst = none)
    (hh : instSearch (pyStrip l.data) = none) : stepLine s l = s := by
  unfold stepLine
  by_cases hb : pyStrip l.data = []
  · rw [if_pos hb]
  · rw [if_neg hb, hh, hcur]

/-- A non-header line under a current institute only rewrites that
institute's entry. -/
theorem stepLine_process {s : PState} {l : String} {cur : String}
    (hh : instSearch (pyStrip l.data) = none) (hc : s.currentInst = some cur)
    (hb : ¬ pyStrip l.data = []) :
    stepLine s l =
      { s with institutes := updAssoc cur (processLine (pyStrip l.data)) s.institutes } := by
  unfold stepLine
  rw [if_neg hb, hh, hc]

/-- The current-institute pointer of a parse run equals the most recent
header code (or the initial pointer when no header occurred). -/
theorem currentInst_foldl :
    ∀ (L : List String) (s : PState),
      (L.foldl stepLine s).currentInst = (headerCodes L).getLast?.or s.currentInst := by
  intro L
  induction L with
  | nil => intro s; simp [headerCodes, Option.none_or]
  | cons l t ih =>
    intro s
    rw [List.foldl_cons]
    cases hh : instSearch (pyStrip l.data) with
    | none =>
      have h1 : headerCodes (l :: t) = headerCodes t := by
        simp [headerCodes, hh]
      rw [h1, ih (stepLine s l), stepLine_currentInst hh]
    | some m =>
      have h1 : headerCodes (l :: t) = strOf m.1 :: headerCodes t := by
        simp [headerCodes, hh]
      rw [h1, ih (stepLine s l), stepLine_header hh]
      cases hc : headerCodes t with
      | nil => simp
      | cons y ys =>
        rw [List.getLast?_cons_cons]
        cases hx : (y :: ys).getLast? with
        | none => exact absurd hx (by simp [List.getLast?_eq_none_iff])
        | some x => rfl

/-- The institute keys accumulated by a parse run are the initial keys
plus the header codes. -/
theorem keys_foldl :
    ∀ (L : List String) (s : PState) (c : String),
      (c ∈ (L.foldl stepLine s).institutes.map Prod.fst ↔
        c ∈ s.institutes.map Prod.fst ∨ c ∈ headerCodes L) := by
  intro L
  induction L with
  | nil => intro s c; simp [headerCodes]
  | cons l t ih =>
    intro s c
    rw [List.foldl_cons]
    cases hh : instSearch (pyStrip l.data) with
    | none =>
      have h1 : headerCodes (l :: t) = headerCodes t := by
        simp [headerCodes, hh]
      have h2 : (stepLine s l).institutes.map Prod.fst = s.institutes.map Prod.fst := by
        unfold stepLine
        by_cases hb : pyStrip l.data = []
        · rw [if_pos hb]
        · rw [if_neg hb, hh]
          cases s.currentInst with
          | none => rfl
          | some cur => exact map_fst_updAssoc cur _ s.institutes
      rw [h1, ih (stepLine s l) c, h2]
    | some m =>
      have h1 : headerCodes (l :: t) = strOf m.1 :: headerCodes t := by
        simp [headerCodes, hh]
      rw [h1, ih (stepLine s l) c, stepLine_header hh]
      simp only [mem_map_fst_setAssoc, List.mem_cons]
      tauto

/-- If a line's processing brings a student record into existence under
institute code c, the current institute at that line was c (all writes of
the per-line passes go through institutes[current_inst], and a header line
installs an empty students dict). -/
theorem rawStudent_new_current (s : PState) (l : String) (code roll : String)
    (hnew : rawStudent s code roll = none)
    (hnow : (rawStudent (stepLine s l) code roll).isSome = true) :
    (stepLine s l).currentInst = some code := by
  by_cases hb : pyStrip l.data = []
  · have : stepLine s l = s := by unfold stepLine; rw [if_pos hb]
    rw [this, hnew] at hnow
    cases hnow
  · cases hh : instSearch (pyStrip l.data) with
    | some m =>
      rw [stepLine_header hh] at hnow
      unfold rawStudent at hnow
      simp only [getAssoc_setAssoc] at hnow
      by_cases hcm : code = strOf m.1
      · rw [if_pos hcm] at hnow
        simp [getAssoc] at hnow
      · rw [if_neg hcm] at hnow
        unfold rawStudent at hnew
        rw [hnew] at hnow
        cases hnow
    | none =>
      cases hc : s.currentInst with
      | none =>
        rw [stepLine_nop hc hh, hnew] at hnow
        cases hnow
      | some cur =>
        rw [stepLine_process hh hc hb] at hnow ⊢
        by_cases hcc : code = cur
        · rw [hcc]
          exact hc
        · unfold rawStudent at hnow
          simp only [getAssoc_updAssoc, if_neg hcc] at hnow
          unfold rawStudent at hnew
          rw [hnew] at hnow
          cases hnow

/-- Presence of a student in the cleaned result coincides with presence in
the raw parse state. -/
theorem gpasOf_isSome_eq (L : List String) (code roll : String) :
    (gpasOf (parsePdfResults L) code roll).isSome =
      (rawStudent (parseRaw L) code roll).isSome := by
  unfold gpasOf parsePdfResults rawStudent
  rw [getAssoc_map_snd]
  cases hi : getAssoc code (parseRaw L).institutes with
  | none => rfl
  | some i =>
    show ((getAssoc roll (cleanupInst i).students).map PStudent.gpas).isSome =
      (getAssoc roll i.students).isSome
    rw [show (cleanupInst i).students =
        i.students.map (fun q => (q.1, cleanupStudent q.2)) from rfl]
    rw [getAssoc_map_snd]
    cases hr : getAssoc roll i.students <;> rfl

/-- Discrete crossing: a Boolean function false at 0 and true at n flips
somewhere below n. -/
theorem bool_flip_exists (f : Nat → Bool) :
    ∀ n, f 0 = false → f n = true →
      ∃ k, k < n ∧ f k = false ∧ f (k + 1) = true := by
  intro n
  induction n with
  | zero =>
    intro h0 h1
    rw [h0] at h1
    cases h1
  | succ n ih =>
    intro h0 h1
    cases hn : f n with
    | true =>
      rcases ih h0 hn with ⟨k, hk, ha, hb⟩
      exact ⟨k, Nat.lt_succ_of_lt hk, ha, hb⟩
    | false => exact ⟨n, Nat.lt_succ_self n, hn, h1⟩

theorem parseRaw_take_succ (L : List String) (k : Nat) (hk : k < L.length) :
    parseRaw (L.take (k + 1)) = stepLine (parseRaw (L.take k)) (L.get ⟨k, hk⟩) := by
  unfold parseRaw
  rw [List.take_succ, List.getElem?_eq_getElem hk, List.foldl_append]
  rfl

/-- C10: tokens before the first institute header contribute nothing (a
header-free prefix leaves the parse result unchanged); the result keys are
exactly the codes of the matched header lines; and any student record
first comes into existence under institute c on a line whose most recent
preceding header (itself included) carries code c. -/
theorem c10_institute_attribution :
    (∀ (pre rest : List String),
        (∀ l ∈ pre, instSearch (pyStrip l.data) = none) →
        parsePdfResults (pre ++ rest) = parsePdfResults rest) ∧
    (∀ (lines : List String) (c : String),
        c ∈ (parsePdfResults lines).map Prod.fst ↔ c ∈ headerCodes lines) ∧
    (∀ (lines : List String) (code roll : String),
        (gpasOf (parsePdfResults lines) code roll).isSome = true →
        ∃ k, k < lines.length ∧
          (gpasOf (parsePdfResults (lines.take k)) code roll).isSome = false ∧
          (gpasOf (parsePdfResults (lines.take (k + 1))) code roll).isSome = true ∧
          lastHeaderCode (lines.take (k + 1)) = some code) := by
  refine ⟨?_, ?_, ?_⟩
  · intro pre rest hpre
    unfold parsePdfResults parseRaw
    rw [List.foldl_append]
    have : pre.foldl stepLine ⟨[], none⟩ = ⟨[], none⟩ := by
      induction pre with
      | nil => rfl
      | cons l t ih =>
        rw [List.foldl_cons,
          stepLine_nop rfl (hpre l (List.mem_cons_self _ _))]
        exact ih (fun x hx => hpre x (List.mem_cons_of_mem _ hx))
    rw [this]
  · intro lines c
    have hkeys : (parsePdfResults lines).map Prod.fst =
        (parseRaw lines).institutes.map Prod.fst := by
      unfold parsePdfResults
      rw [List.map_map]
      rfl
    rw [hkeys]
    unfold parseRaw
    rw [keys_foldl lines ⟨[], none⟩ c]
    simp
  · intro lines code roll h
    rw [gpasOf_isSome_eq] at h
    have h0 : (rawStudent (parseRaw (lines.take 0)) code roll).isSome = false := rfl
    have hn : (rawStudent (parseRaw (lines.take lines.length)) code roll).isSome = true := by
      rw [List.take_length]
      exact h
    obtain ⟨k, hk, ha, hb⟩ := bool_flip_exists
      (fun k => (rawStudent (parseRaw (lines.take k)) code roll).isSome)
      lines.length h0 hn
    refine ⟨k, hk, ?_, ?_, ?_⟩
    · rw [gpasOf_isSome_eq]; exact ha
    · rw [gpasOf_isSome_eq]; exact hb
    · have hstep := parseRaw_take_succ lines k hk
      have hnone : rawStudent (parseRaw (lines.take k)) code roll = none := by
        cases hrs : rawStudent (parseRaw (lines.take k)) code roll with
        | none => rfl
        | some x => rw [hrs] at ha; cases ha
      have hcur : (parseRaw (lines.take (k + 1))).currentInst = some code := by
        rw [hstep]
        exact rawStudent_new_current _ _ _ _ hnone (by rw [← hstep]; exact hb)
      have hinv := currentInst_foldl (lines.take (k + 1)) ⟨[], none⟩
      unfold parseRaw at hcur
      rw [hcur] at hinv
      unfold lastHeaderCode
      rw [← Option.or_none (o := (headerCodes (lines.take (k + 1))).getLast?)]
      exact hinv.symm

/-- Witness for C10: the three parts applied at concrete inputs. -/
theorem c10_institute_attribution_witness :
    parsePdfResults (["junk line"] ++ c3Lines) = parsePdfResults c3Lines ∧
    (("11044" ∈ (parsePdfResults c3Lines).map Prod.fst) ↔
      "11044" ∈ headerCodes c3Lines) ∧
    (∃ k, k < c3Lines.length ∧
      (gpasOf (parsePdfResults (c3Lines.take k)) ("11044") ("700014")).isSome = false ∧
      (gpasOf (parsePdfResults (c3Lines.take (k + 1))) ("11044") ("700014")).isSome = true ∧
      lastHeaderCode (c3Lines.take (k + 1)) = some ("11044")) := by
  refine ⟨?_, ?_, ?_⟩
  · exact c10_institute_attribution.1 ["junk line"] c3Lines (by decide)
  · exact c10_institute_attribution.2.1 c3Lines ("11044")
  · exact c10_institute_attribution.2.2 c3Lines ("11044") ("700014") (by rfl)

end BTEB
